import Mathlib

/-!
Shallow embedding of the `ccwc` word-count utility
(`src/001/rust/ccwc/src/main.rs`) and verification of its specification.

Bytes are modelled as `Nat` values below 256 (the counting logic only ever
compares bytes against constants, so no modular arithmetic arises); the
`u64` counters cannot overflow since each is incremented at most once per
input byte, so they are modelled as `Nat`.
-/

namespace CCWC

/-- The flag state of the command (`struct WCCmd`, flag fields only —
the `inputs`/`outputs` vectors are passed explicitly below). -/
structure WCCmd where
  bytes : Bool
  lines : Bool
  words : Bool
  chars : Bool
deriving DecidableEq, Repr

/-- One per-input result (`struct WCOutput`). -/
@[ext]
structure WCOutput where
  byte_ct : Nat
  line_ct : Nat
  word_ct : Nat
  char_ct : Nat
  filename : Option String
deriving DecidableEq, Repr

/-- Rust `WCOutput::default()`: all counters zero, no filename. -/
def WCOutput.default : WCOutput :=
  { byte_ct := 0, line_ct := 0, word_ct := 0, char_ct := 0, filename := none }

/-- Rust `WCCmd::use_default_flags`. -/
def use_default_flags (wc : WCCmd) : Bool :=
  !wc.chars && !wc.lines && !wc.words && !wc.bytes

/-- Rust `u8::is_ascii_whitespace`: space, horizontal tab, line feed,
form feed, carriage return. -/
def is_ascii_whitespace (b : Nat) : Bool :=
  b == 0x20 || b == 0x09 || b == 0x0A || b == 0x0C || b == 0x0D

/-- Continuation byte test for UTF-8 validation (`0x80 ..= 0xBF`). -/
def utf8_cont (b : Nat) : Bool :=
  decide (0x80 ≤ b) && decide (b ≤ 0xBF)

/-- Allowed second byte after a three-byte leading byte, per the UTF-8
validation performed by Rust `String::from_utf8` (excludes overlong
encodings and surrogates). -/
def utf8_second3 (b0 b1 : Nat) : Bool :=
  if b0 == 0xE0 then decide (0xA0 ≤ b1) && decide (b1 ≤ 0xBF)
  else if b0 == 0xED then decide (0x80 ≤ b1) && decide (b1 ≤ 0x9F)
  else utf8_cont b1

/-- Allowed second byte after a four-byte leading byte, per the UTF-8
validation performed by Rust `String::from_utf8` (excludes overlong
encodings and values above `0x10FFFF`). -/
def utf8_second4 (b0 b1 : Nat) : Bool :=
  if b0 == 0xF0 then decide (0x90 ≤ b1) && decide (b1 ≤ 0xBF)
  else if b0 == 0xF4 then decide (0x80 ≤ b1) && decide (b1 ≤ 0x8F)
  else utf8_cont b1

/-- UTF-8 decoding as performed by Rust `String::from_utf8` followed by
`chars()`: returns the list of decoded scalar values, or `none` when the
byte sequence is not valid UTF-8. -/
def utf8_decode : List Nat → Option (List Nat)
  | [] => some []
  | b0 :: rest =>
    if b0 < 0x80 then
      match utf8_decode rest with
      | some cs => some (b0 :: cs)
      | none => none
    else if decide (0xC2 ≤ b0) && decide (b0 ≤ 0xDF) then
      match rest with
      | b1 :: rest1 =>
        if utf8_cont b1 then
          match utf8_decode rest1 with
          | some cs => some (((b0 - 0xC0) * 0x40 + (b1 - 0x80)) :: cs)
          | none => none
        else none
      | [] => none
    else if decide (0xE0 ≤ b0) && decide (b0 ≤ 0xEF) then
      match rest with
      | b1 :: b2 :: rest2 =>
        if utf8_second3 b0 b1 && utf8_cont b2 then
          match utf8_decode rest2 with
          | some cs =>
            some (((b0 - 0xE0) * 0x1000 + (b1 - 0x80) * 0x40 + (b2 - 0x80)) :: cs)
          | none => none
        else none
      | _ => none
    else if decide (0xF0 ≤ b0) && decide (b0 ≤ 0xF4) then
      match rest with
      | b1 :: b2 :: b3 :: rest3 =>
        if utf8_second4 b0 b1 && utf8_cont b2 && utf8_cont b3 then
          match utf8_decode rest3 with
          | some cs =>
            some (((b0 - 0xF0) * 0x40000 + (b1 - 0x80) * 0x1000 +
                   (b2 - 0x80) * 0x40 + (b3 - 0x80)) :: cs)
          | none => none
        else none
      | _ => none
    else none

/-- One iteration of the per-byte loop in `WCCmd::process` (lines 85-103):
state is the output record under construction together with the
`parsing_word` boolean. `d` is the `default` flag computed before the loop. -/
def process_byte (wc : WCCmd) (d : Bool) (st : WCOutput × Bool) (b : Nat) :
    WCOutput × Bool :=
  let o := st.1
  let pw := st.2
  let o1 := if wc.bytes || d then { o with byte_ct := o.byte_ct + 1 } else o
  let o2 := if (wc.lines || d) && b == 0x0A then { o1 with line_ct := o1.line_ct + 1 } else o1
  if wc.words || d then
    if pw then
      if is_ascii_whitespace b then ({ o2 with word_ct := o2.word_ct + 1 }, false)
      else (o2, true)
    else
      if !is_ascii_whitespace b then (o2, true)
      else (o2, false)
  else (o2, pw)

/-- The body of `WCCmd::process` for a single input whose bytes are
`buffer`: the per-byte counting loop (with `parsing_word` initialized to
`true`) followed by the `chars` pass, which decodes the buffer as UTF-8
and falls back to the `byte_ct` field on decode failure. -/
def process_buffer (wc : WCCmd) (filename : Option String) (buffer : List Nat) :
    WCOutput :=
  let d := use_default_flags wc
  let init := { WCOutput.default with filename := filename }
  let o := (buffer.foldl (process_byte wc d) (init, true)).1
  if wc.chars then
    match utf8_decode buffer with
    | some cs => { o with char_ct := cs.length }
    | none => { o with char_ct := o.byte_ct }
  else o

/-- One input of the run. In the Rust code `WCInput` is a file path or
stdin and `WCInput::as_buffer` performs the actual I/O; here the
environment is modelled by recording, for each input, its display name
(`WCInput::path()`: the path for a file, `none` for stdin) and the outcome
that `as_buffer` produces for it — either the bytes read or an I/O error. -/
structure WCInput where
  filename : Option String
  readResult : Except String (List Nat)

/-- Boolean test that an input's read succeeds. -/
def read_ok (i : WCInput) : Bool :=
  match i.readResult with
  | Except.ok _ => true
  | Except.error _ => false

/-- Rust `WCCmd::process` over the whole input list: inputs are processed
in order; the first failing read propagates its error immediately
(the `?` operator) and no further input is touched. -/
def process (wc : WCCmd) : List WCInput → Except String (List WCOutput)
  | [] => Except.ok []
  | i :: rest =>
    match i.readResult with
    | Except.error e => Except.error e
    | Except.ok buf =>
      match process wc rest with
      | Except.error e => Except.error e
      | Except.ok outs => Except.ok (process_buffer wc i.filename buf :: outs)

/-- Rust `WCOutput::as_string` (lines 161-180): sequential `push_str`
calls guarded by the flag conditions. -/
def as_string (o : WCOutput) (wc : WCCmd) : String :=
  let d := use_default_flags wc
  let out := ""
  let out := if wc.lines || d then out ++ "\t" ++ toString o.line_ct else out
  let out := if wc.words || d then out ++ "\t" ++ toString o.word_ct else out
  let out := if wc.chars then out ++ "\t" ++ toString o.char_ct
             else if wc.bytes || d then out ++ "\t" ++ toString o.byte_ct
             else out
  match o.filename with
  | some f => out ++ " " ++ f
  | none => out

/-- Value of the `word_ct` counter produced by the per-byte loop over `l`
when `parsing_word` starts as `pw` (helper for reasoning about the loop). -/
def wcount : Bool → List Nat → Nat
  | _, [] => 0
  | pw, b :: rest =>
    if pw then
      if is_ascii_whitespace b then 1 + wcount false rest else wcount true rest
    else
      if !is_ascii_whitespace b then wcount true rest else wcount false rest

/-- Number of positions in `l` (whose predecessor byte is `prev`) that
start a maximal run of ASCII-whitespace bytes. -/
def countWsRunsAux : Nat → List Nat → Nat
  | _, [] => 0
  | prev, b :: rest =>
    (if is_ascii_whitespace b && !is_ascii_whitespace prev then 1 else 0) +
      countWsRunsAux b rest

/-- Number of maximal runs of ASCII-whitespace bytes in `l`: a run starts
at a whitespace byte that is at position zero or preceded by a
non-whitespace byte. -/
def countWsRuns : List Nat → Nat
  | [] => 0
  | b :: rest => (if is_ascii_whitespace b then 1 else 0) + countWsRunsAux b rest

/-- Number of positions in `l` (whose predecessor byte is `prev`) that
start a maximal run of non-whitespace bytes. -/
def countNonWsRunsAux : Nat → List Nat → Nat
  | _, [] => 0
  | prev, b :: rest =>
    (if !is_ascii_whitespace b && is_ascii_whitespace prev then 1 else 0) +
      countNonWsRunsAux b rest

/-- Number of maximal runs of non-whitespace bytes in `l` — the word
count stated by the specification: a run starts at a non-whitespace byte
that is at position zero or preceded by a whitespace byte. -/
def countNonWsRuns : List Nat → Nat
  | [] => 0
  | b :: rest => (if is_ascii_whitespace b then 0 else 1) + countNonWsRunsAux b rest

/-- The chars column is shown exactly when the chars flag is requested
(spec, Formatter rule 3). -/
def chars_col_shown (wc : WCCmd) : Bool := wc.chars

/-- The bytes column is shown exactly when chars is not requested and
bytes is requested or default mode applies (spec, Formatter rule 3). -/
def bytes_col_shown (wc : WCCmd) : Bool :=
  !wc.chars && (wc.bytes || use_default_flags wc)

/-- The Formatter as the specification words it: the concatenation, in
fixed order, of an optional lines column, an optional words column, an
optional chars-or-bytes column, and an optional display-name suffix. -/
def format_spec (o : WCOutput) (wc : WCCmd) : String :=
  (if wc.lines || use_default_flags wc then "\t" ++ toString o.line_ct else "") ++
  (if wc.words || use_default_flags wc then "\t" ++ toString o.word_ct else "") ++
  (if chars_col_shown wc then "\t" ++ toString o.char_ct
   else if bytes_col_shown wc then "\t" ++ toString o.byte_ct else "") ++
  (match o.filename with
   | some f => " " ++ f
   | none => "")

lemma pb_byte (wc : WCCmd) (d : Bool) (o : WCOutput) (pw : Bool) (b : Nat) :
    ((process_byte wc d (o, pw) b).1).byte_ct =
      o.byte_ct + (if wc.bytes || d then 1 else 0) := by
  simp only [process_byte]
  split_ifs <;> simp_all

lemma pb_line (wc : WCCmd) (d : Bool) (o : WCOutput) (pw : Bool) (b : Nat) :
    ((process_byte wc d (o, pw) b).1).line_ct =
      o.line_ct + (if (wc.lines || d) && b == 0x0A then 1 else 0) := by
  simp only [process_byte]
  split_ifs <;> simp_all

lemma pb_word (wc : WCCmd) (d : Bool) (o : WCOutput) (pw : Bool) (b : Nat) :
    ((process_byte wc d (o, pw) b).1).word_ct =
      o.word_ct + (if (wc.words || d) && pw && is_ascii_whitespace b then 1 else 0) := by
  simp only [process_byte]
  split_ifs <;> simp_all

lemma pb_char (wc : WCCmd) (d : Bool) (o : WCOutput) (pw : Bool) (b : Nat) :
    ((process_byte wc d (o, pw) b).1).char_ct = o.char_ct := by
  simp only [process_byte]
  split_ifs <;> simp_all

lemma pb_filename (wc : WCCmd) (d : Bool) (o : WCOutput) (pw : Bool) (b : Nat) :
    ((process_byte wc d (o, pw) b).1).filename = o.filename := by
  simp only [process_byte]
  split_ifs <;> simp_all

lemma pb_state (wc : WCCmd) (d : Bool) (o : WCOutput) (pw : Bool) (b : Nat) :
    (process_byte wc d (o, pw) b).2 =
      if wc.words || d then !is_ascii_whitespace b else pw := by
  simp only [process_byte]
  split_ifs <;> simp_all


lemma foldl_byte (wc : WCCmd) (d : Bool) (l : List Nat) :
    ∀ (o : WCOutput) (pw : Bool),
    ((l.foldl (process_byte wc d) (o, pw)).1).byte_ct =
      o.byte_ct + (if wc.bytes || d then l.length else 0) := by
  induction l with
  | nil => intro o pw; simp
  | cons b rest ih =>
    intro o pw
    rcases hpb : process_byte wc d (o, pw) b with ⟨o1, pw1⟩
    have h1 : o1.byte_ct = o.byte_ct + (if wc.bytes || d then 1 else 0) := by
      have h := pb_byte wc d o pw b
      rw [hpb] at h
      simpa using h
    simp only [List.foldl_cons, hpb, ih]
    rw [h1]
    cases hb : (wc.bytes || d) <;> simp [hb] <;> omega

lemma foldl_char (wc : WCCmd) (d : Bool) (l : List Nat) :
    ∀ (o : WCOutput) (pw : Bool),
    ((l.foldl (process_byte wc d) (o, pw)).1).char_ct = o.char_ct := by
  induction l with
  | nil => intro o pw; simp
  | cons b rest ih =>
    intro o pw
    rcases hpb : process_byte wc d (o, pw) b with ⟨o1, pw1⟩
    have h1 : o1.char_ct = o.char_ct := by
      have h := pb_char wc d o pw b
      rw [hpb] at h
      simpa using h
    simp only [List.foldl_cons, hpb, ih, h1]

lemma foldl_filename (wc : WCCmd) (d : Bool) (l : List Nat) :
    ∀ (o : WCOutput) (pw : Bool),
    ((l.foldl (process_byte wc d) (o, pw)).1).filename = o.filename := by
  induction l with
  | nil => intro o pw; simp
  | cons b rest ih =>
    intro o pw
    rcases hpb : process_byte wc d (o, pw) b with ⟨o1, pw1⟩
    have h1 : o1.filename = o.filename := by
      have h := pb_filename wc d o pw b
      rw [hpb] at h
      simpa using h
    simp only [List.foldl_cons, hpb, ih, h1]

lemma foldl_line (wc : WCCmd) (d : Bool) (l : List Nat) :
    ∀ (o : WCOutput) (pw : Bool),
    ((l.foldl (process_byte wc d) (o, pw)).1).line_ct =
      o.line_ct + (if wc.lines || d then l.count 0x0A else 0) := by
  induction l with
  | nil => intro o pw; simp
  | cons b rest ih =>
    intro o pw
    rcases hpb : process_byte wc d (o, pw) b with ⟨o1, pw1⟩
    have h1 : o1.line_ct = o.line_ct + (if (wc.lines || d) && b == 0x0A then 1 else 0) := by
      have h := pb_line wc d o pw b
      rw [hpb] at h
      simpa using h
    simp only [List.foldl_cons, hpb, ih]
    rw [h1]
    cases hl : (wc.lines || d) <;> cases hbn : (b == 0x0A) <;>
      simp [hl, hbn, List.count_cons] <;> omega

lemma foldl_word (wc : WCCmd) (d : Bool) (l : List Nat) :
    ∀ (o : WCOutput) (pw : Bool),
    ((l.foldl (process_byte wc d) (o, pw)).1).word_ct =
      o.word_ct + (if wc.words || d then wcount pw l else 0) := by
  induction l with
  | nil => intro o pw; simp [wcount]
  | cons b rest ih =>
    intro o pw
    rcases hpb : process_byte wc d (o, pw) b with ⟨o1, pw1⟩
    have h1 : o1.word_ct =
        o.word_ct + (if (wc.words || d) && pw && is_ascii_whitespace b then 1 else 0) := by
      have h := pb_word wc d o pw b
      rw [hpb] at h
      simpa using h
    have h2 : pw1 = if wc.words || d then !is_ascii_whitespace b else pw := by
      have h := pb_state wc d o pw b
      rw [hpb] at h
      simpa using h
    simp only [List.foldl_cons, hpb, ih]
    rw [h1, h2]
    cases hw : (wc.words || d) <;> cases hws : is_ascii_whitespace b <;> cases pw <;>
      simp [wcount, hws] <;> omega

lemma wcount_aux (l : List Nat) :
    ∀ prev, wcount (!is_ascii_whitespace prev) l = countWsRunsAux prev l := by
  induction l with
  | nil => intro prev; simp [wcount, countWsRunsAux]
  | cons b rest ih =>
    intro prev
    have hib := ih b
    cases hp : is_ascii_whitespace prev <;> cases hb : is_ascii_whitespace b <;>
      simp only [hb, Bool.not_false, Bool.not_true] at hib <;>
      simp [wcount, countWsRunsAux, hp, hb, hib]

lemma wcount_true_eq (l : List Nat) : wcount true l = countWsRuns l := by
  cases l with
  | nil => simp [wcount, countWsRuns]
  | cons b rest =>
    have hib := wcount_aux rest b
    cases hb : is_ascii_whitespace b <;>
      simp only [hb, Bool.not_false, Bool.not_true] at hib <;>
      simp [wcount, countWsRuns, hb, hib]

lemma process_buffer_eq (wc : WCCmd) (fn : Option String) (S : List Nat) :
    process_buffer wc fn S =
      { byte_ct := if wc.bytes || use_default_flags wc then S.length else 0,
        line_ct := if wc.lines || use_default_flags wc then S.count 0x0A else 0,
        word_ct := if wc.words || use_default_flags wc then wcount true S else 0,
        char_ct :=
          if wc.chars then
            match utf8_decode S with
            | some cs => cs.length
            | none => if wc.bytes || use_default_flags wc then S.length else 0
          else 0,
        filename := fn } := by
  have hb := foldl_byte wc (use_default_flags wc) S { WCOutput.default with filename := fn } true
  have hl := foldl_line wc (use_default_flags wc) S { WCOutput.default with filename := fn } true
  have hw := foldl_word wc (use_default_flags wc) S { WCOutput.default with filename := fn } true
  have hc := foldl_char wc (use_default_flags wc) S { WCOutput.default with filename := fn } true
  have hf := foldl_filename wc (use_default_flags wc) S { WCOutput.default with filename := fn } true
  simp only [WCOutput.default] at hb hl hw hc hf
  simp only [process_buffer, WCOutput.default]
  cases hch : wc.chars <;> [skip; cases hdec : utf8_decode S] <;>
    · ext <;> simp_all

lemma as_string_eq_format_spec (o : WCOutput) (wc : WCCmd) :
    as_string o wc = format_spec o wc := by
  obtain ⟨cb, cl, cw, cm⟩ := wc
  cases cb <;> cases cl <;> cases cw <;> cases cm <;> cases hf : o.filename <;>
    simp [as_string, format_spec, chars_col_shown, bytes_col_shown, use_default_flags,
          hf, String.append_assoc, String.empty_append, String.append_empty]

/-- Claim C1 (code bug evaluation): on the single invalid UTF-8 byte `0xFF`
with only the chars flag requested, the UTF-8 decode fails and `char_ct`
falls back to the `byte_ct` field — but that field is `0`, not the input
length `1`, because byte counting is disabled when only chars is requested;
the formatted line is `"\t0"`, not the `"\t1"` the claim states. -/
theorem chars_only_invalid_utf8_fallback :
    utf8_decode [0xFF] = none ∧
    (process_buffer ⟨false, false, false, true⟩ none [0xFF]).char_ct = 0 ∧
    (process_buffer ⟨false, false, false, true⟩ none [0xFF]).byte_ct = 0 ∧
    as_string (process_buffer ⟨false, false, false, true⟩ none [0xFF])
        ⟨false, false, false, true⟩ = "\t0" := by
  decide

/-- Claim C2 counterexample: on the input `"a"` (one non-whitespace byte)
with the words flag requested, the code produces `word_ct = 0`, while the
number of maximal runs of non-whitespace bytes is `1` — a trailing
non-whitespace run at end of input is NOT counted. -/
theorem word_count_not_nonws_runs :
    (process_buffer ⟨false, false, true, false⟩ none [97]).word_ct = 0 ∧
    countNonWsRuns [97] = 1 := by
  decide

/-- Claim C2 (amended): for every byte sequence `S`, when words is
requested or default mode applies, `word_ct` equals the number of maximal
runs of ASCII-whitespace bytes in `S` (the state machine counts a word at
each transition into whitespace, starting in the in-word state, so a
trailing non-whitespace run does not count and leading whitespace yields
one extra count). -/
theorem word_count_eq_ws_runs (wc : WCCmd) (fn : Option String) (S : List Nat)
    (h : (wc.words || use_default_flags wc) = true) :
    (process_buffer wc fn S).word_ct = countWsRuns S := by
  rw [process_buffer_eq, ← wcount_true_eq]
  simp [h]

/-- Witness for the amended claim C2, at the words-only flags and the
input `" a "`. -/
theorem word_count_eq_ws_runs_witness :
    ((⟨false, false, true, false⟩ : WCCmd).words ||
        use_default_flags ⟨false, false, true, false⟩) = true ∧
    (process_buffer ⟨false, false, true, false⟩ none [32, 97, 32]).word_ct =
      countWsRuns [32, 97, 32] :=
  ⟨by decide,
   word_count_eq_ws_runs ⟨false, false, true, false⟩ none [32, 97, 32] (by decide)⟩

/-- Claim C4: for every byte sequence `S` and every flag combination,
`byte_ct` equals the length of `S` whenever bytes is requested or default
mode applies. -/
theorem byte_count_eq_length (wc : WCCmd) (fn : Option String) (S : List Nat)
    (h : (wc.bytes || use_default_flags wc) = true) :
    (process_buffer wc fn S).byte_ct = S.length := by
  rw [process_buffer_eq]
  simp [h]

/-- Witness for claim C4 at the bytes-only flags and a three-byte input. -/
theorem byte_count_eq_length_witness :
    ((⟨true, false, false, false⟩ : WCCmd).bytes ||
        use_default_flags ⟨true, false, false, false⟩) = true ∧
    (process_buffer ⟨true, false, false, false⟩ none [0, 1, 255]).byte_ct =
      [0, 1, 255].length :=
  ⟨by decide,
   byte_count_eq_length ⟨true, false, false, false⟩ none [0, 1, 255] (by decide)⟩

/-- Claim C5: for every byte sequence `S`, when lines is requested or
default mode applies, `line_ct` equals the number of occurrences of the
line-feed byte `0x0A` in `S`. -/
theorem line_count_eq_newlines (wc : WCCmd) (fn : Option String) (S : List Nat)
    (h : (wc.lines || use_default_flags wc) = true) :
    (process_buffer wc fn S).line_ct = S.count 0x0A := by
  rw [process_buffer_eq]
  simp [h]

/-- Witness for claim C5 at the lines-only flags and an input holding two
line feeds. -/
theorem line_count_eq_newlines_witness :
    ((⟨false, true, false, false⟩ : WCCmd).lines ||
        use_default_flags ⟨false, true, false, false⟩) = true ∧
    (process_buffer ⟨false, true, false, false⟩ none [10, 97, 10]).line_ct =
      [10, 97, 10].count 0x0A :=
  ⟨by decide,
   line_count_eq_newlines ⟨false, true, false, false⟩ none [10, 97, 10] (by decide)⟩

/-- Claim C8: for every flag combination (and any display name), the
empty byte sequence yields a result whose four counts are all zero. -/
theorem empty_input_all_zero (wc : WCCmd) (fn : Option String) :
    (process_buffer wc fn []).byte_ct = 0 ∧
    (process_buffer wc fn []).line_ct = 0 ∧
    (process_buffer wc fn []).word_ct = 0 ∧
    (process_buffer wc fn []).char_ct = 0 := by
  have hdec : utf8_decode [] = some [] := rfl
  simp [process_buffer_eq, wcount, hdec]

/-- Claim C9: formatting is deterministic — applying `as_string` to the
same result and request twice yields identical strings (the formatter is a
pure function of its two arguments). -/
theorem formatter_deterministic (o : WCOutput) (wc : WCCmd) :
    as_string o wc = as_string o wc := rfl

/-- Claim C6: the formatter emits columns in the fixed order lines,
words, then chars-or-bytes, the chars column exactly when chars is
requested, the bytes column only when chars is not requested and bytes or
default mode applies, and a display-name suffix exactly when a display
name is present (`format_spec` states those rules in the specification's
words); the chars and bytes columns are never shown together. -/
theorem formatter_column_order (o : WCOutput) (wc : WCCmd) :
    as_string o wc = format_spec o wc ∧
    (chars_col_shown wc && bytes_col_shown wc) = false := by
  refine ⟨as_string_eq_format_spec o wc, ?_⟩
  cases hc : wc.chars <;> simp [chars_col_shown, bytes_col_shown, hc]

/-- Claim C10: any count whose metric is not requested and for which
default mode does not apply remains zero — bytes, lines and words stay
zero when their flags are off and default mode does not apply, and chars
stays zero when the chars flag is off. -/
theorem unrequested_counts_zero (wc : WCCmd) (fn : Option String) (S : List Nat) :
    ((wc.bytes || use_default_flags wc) = false → (process_buffer wc fn S).byte_ct = 0) ∧
    ((wc.lines || use_default_flags wc) = false → (process_buffer wc fn S).line_ct = 0) ∧
    ((wc.words || use_default_flags wc) = false → (process_buffer wc fn S).word_ct = 0) ∧
    (wc.chars = false → (process_buffer wc fn S).char_ct = 0) := by
  refine ⟨fun h => ?_, fun h => ?_, fun h => ?_, fun h => ?_⟩ <;>
    simp [process_buffer_eq, h]

/-- Witness for claim C10: with only chars set, byte, line and word
counts are zero on the input `"a\n"`; with only bytes set, the char count
is zero. -/
theorem unrequested_counts_zero_witness :
    (process_buffer ⟨false, false, false, true⟩ none [97, 10]).byte_ct = 0 ∧
    (process_buffer ⟨false, false, false, true⟩ none [97, 10]).line_ct = 0 ∧
    (process_buffer ⟨false, false, false, true⟩ none [97, 10]).word_ct = 0 ∧
    (process_buffer ⟨true, false, false, false⟩ none [97, 10]).char_ct = 0 :=
  ⟨(unrequested_counts_zero ⟨false, false, false, true⟩ none [97, 10]).1 (by decide),
   (unrequested_counts_zero ⟨false, false, false, true⟩ none [97, 10]).2.1 (by decide),
   (unrequested_counts_zero ⟨false, false, false, true⟩ none [97, 10]).2.2.1 (by decide),
   (unrequested_counts_zero ⟨true, false, false, false⟩ none [97, 10]).2.2.2 (by decide)⟩

/-- Claim C3: with all four flags false (default mode), the formatted
line for a stdin result shows exactly the three tab-prefixed numbers
lines, words, bytes in that order with no chars column, and the input
`"foo bar\nbaz\n"` read from stdin yields `line_ct = 2`, `word_ct = 3`,
`byte_ct = 12` and the line `"\t2\t3\t12"`. -/
theorem default_mode_output :
    (∀ bc lc wdc cc : Nat,
       as_string ⟨bc, lc, wdc, cc, none⟩ ⟨false, false, false, false⟩ =
         "\t" ++ toString lc ++ "\t" ++ toString wdc ++ "\t" ++ toString bc) ∧
    process ⟨false, false, false, false⟩
        [⟨none, Except.ok [102, 111, 111, 32, 98, 97, 114, 10, 98, 97, 122, 10]⟩] =
      Except.ok [⟨12, 2, 3, 0, none⟩] ∧
    as_string ⟨12, 2, 3, 0, none⟩ ⟨false, false, false, false⟩ = "\t2\t3\t12" := by
  refine ⟨fun bc lc wdc cc => ?_, rfl, by decide⟩
  simp [as_string, use_default_flags, String.append_assoc, String.empty_append]

/-- Claim C7: if reading any given input fails, processing aborts at
that input: the underlying I/O error is propagated immediately, and the
result is that error regardless of what the remaining inputs are (they
are quantified arbitrarily and never influence the outcome). -/
theorem io_error_aborts (wc : WCCmd) (pre suf : List WCInput) (i : WCInput) (e : String)
    (hpre : pre.all read_ok = true) (hi : i.readResult = Except.error e) :
    process wc (pre ++ i :: suf) = Except.error e := by
  induction pre with
  | nil => simp [process, hi]
  | cons j rest ih =>
    simp only [List.all_cons, Bool.and_eq_true] at hpre
    obtain ⟨hj, hrest⟩ := hpre
    rcases hjr : j.readResult with e2 | buf
    · simp [read_ok, hjr] at hj
    · simp [process, hjr, ih hrest]

/-- Witness for claim C7: one successful input followed by a failing one
and one more input yields the failing input's error. -/
theorem io_error_aborts_witness :
    process ⟨false, false, false, false⟩
        [⟨none, Except.ok [97]⟩, ⟨some "f", Except.error "boom"⟩, ⟨none, Except.ok []⟩] =
      Except.error "boom" :=
  io_error_aborts ⟨false, false, false, false⟩ [⟨none, Except.ok [97]⟩]
    [⟨none, Except.ok []⟩] ⟨some "f", Except.error "boom"⟩ "boom" (by decide) rfl

end CCWC
